import Mathlib

/-!
Shallow embedding of the `auditcli` audit control plane, translated from the
repository's Python sources, together with proofs about the embedded
operations.

Conventions of the embedding:
* wall-clock instants (`time.time()`, SQL `CURRENT_TIMESTAMP`) are integers
  (`ℤ`) passed explicitly to every operation that reads the clock — the code
  only ever compares clock values and takes their differences, and `ℤ` keeps
  every such comparison computable;
* Python `dict`s are association lists that keep insertion order (a new key is
  appended, an existing key is updated in place), Python `set`s of strings are
  duplicate-free lists with append-on-add;
* fallible operations return `Except`/`Option` values;
* exception control flow is made explicit: a caught exception becomes an
  `Except.error` input to the caller.
-/

namespace AuditCli

/-- Performance rating for metrics; `Rating` in `app/schemas/common.py`. -/
inductive Rating
  | good
  | needsImprovement
  | poor
  deriving DecidableEq, Repr

/-- `_rate_lcp` from `app/core/psi.py` (identical in `src/psi.py`):
thresholds 2500 ms / 4000 ms, both inclusive on the lower band. -/
def rate_lcp (lcp_ms : ℚ) : Rating :=
  if lcp_ms ≤ 2500 then .good
  else if lcp_ms ≤ 4000 then .needsImprovement
  else .poor

/-- `_rate_cls` from `app/core/psi.py`: thresholds 0.1 / 0.25. -/
def rate_cls (cls : ℚ) : Rating :=
  if cls ≤ (0.1 : ℚ) then .good
  else if cls ≤ (0.25 : ℚ) then .needsImprovement
  else .poor

/-- `_rate_inp` from `app/core/psi.py`: thresholds 200 ms / 500 ms. -/
def rate_inp (inp_ms : ℚ) : Rating :=
  if inp_ms ≤ 200 then .good
  else if inp_ms ≤ 500 then .needsImprovement
  else .poor

/-- The common shape of the three rating functions: two inclusive thresholds
cutting `ℚ` into three bands. -/
theorem rate_bands (lo hi x : ℚ) (hlh : lo ≤ hi) :
    ((if x ≤ lo then Rating.good
      else if x ≤ hi then Rating.needsImprovement
      else Rating.poor) = .good ↔ x ≤ lo)
    ∧ ((if x ≤ lo then Rating.good
      else if x ≤ hi then Rating.needsImprovement
      else Rating.poor) = .needsImprovement ↔ lo < x ∧ x ≤ hi)
    ∧ ((if x ≤ lo then Rating.good
      else if x ≤ hi then Rating.needsImprovement
      else Rating.poor) = .poor ↔ hi < x) := by
  split_ifs with h1 h2
  · exact ⟨iff_of_true rfl h1,
      iff_of_false (by simp) (fun h => absurd h1 (not_le.mpr h.1)),
      iff_of_false (by simp) (fun h => absurd h1 (not_le.mpr (lt_of_le_of_lt hlh h)))⟩
  · exact ⟨iff_of_false (by simp) h1,
      iff_of_true rfl ⟨not_le.mp h1, h2⟩,
      iff_of_false (by simp) (fun h => absurd h2 (not_le.mpr h))⟩
  · exact ⟨iff_of_false (by simp) (fun h => h2 (le_trans h hlh)),
      iff_of_false (by simp) (fun h => h2 h.2),
      iff_of_true rfl (not_le.mp h2)⟩

/-- C8: the three rating functions are deterministic — any number of repeated
calls on the same numeric value all yield the same rating — and implement the
fixed thresholds with boundaries respected: LCP ≤ 2500 ms is Good (2500
included, 2501 is NeedsImprovement), ≤ 4000 ms is NeedsImprovement, above is
Poor; CLS ≤ 0.1 / ≤ 0.25; INP ≤ 200 ms / ≤ 500 ms. -/
theorem rating_functions_deterministic_thresholds :
    (∀ (n : Nat) (x : ℚ),
      ((List.replicate n x).map rate_lcp = List.replicate n (rate_lcp x))
      ∧ ((List.replicate n x).map rate_cls = List.replicate n (rate_cls x))
      ∧ ((List.replicate n x).map rate_inp = List.replicate n (rate_inp x)))
    ∧ (∀ x : ℚ, (rate_lcp x = .good ↔ x ≤ 2500)
        ∧ (rate_lcp x = .needsImprovement ↔ 2500 < x ∧ x ≤ 4000)
        ∧ (rate_lcp x = .poor ↔ 4000 < x))
    ∧ rate_lcp 2500 = .good
    ∧ rate_lcp 2501 = .needsImprovement
    ∧ (∀ x : ℚ, (rate_cls x = .good ↔ x ≤ (0.1 : ℚ))
        ∧ (rate_cls x = .needsImprovement ↔ (0.1 : ℚ) < x ∧ x ≤ (0.25 : ℚ))
        ∧ (rate_cls x = .poor ↔ (0.25 : ℚ) < x))
    ∧ (∀ x : ℚ, (rate_inp x = .good ↔ x ≤ 200)
        ∧ (rate_inp x = .needsImprovement ↔ 200 < x ∧ x ≤ 500)
        ∧ (rate_inp x = .poor ↔ 500 < x)) := by
  refine ⟨?_, ?_, ?_, ?_, ?_, ?_⟩
  · intro n x
    exact ⟨List.map_replicate, List.map_replicate, List.map_replicate⟩
  · intro x
    exact rate_bands 2500 4000 x (by norm_num)
  · unfold rate_lcp
    norm_num
  · unfold rate_lcp
    norm_num
  · intro x
    exact rate_bands (0.1 : ℚ) (0.25 : ℚ) x (by norm_num)
  · intro x
    exact rate_bands 200 500 x (by norm_num)

/-! ## Circuit breaker (`app/services/circuit_breaker.py`) -/

/-- `CircuitState`; the source's `OPEN` is rendered `opened` (keyword). -/
inductive CircuitState
  | closed
  | opened
  | halfOpen
  deriving DecidableEq, Repr

/-- `CircuitBreakerConfig`. -/
structure CircuitBreakerConfig where
  failure_threshold : Nat
  recovery_timeout : ℤ
  half_open_max_calls : Nat
  success_threshold : Nat
  deriving DecidableEq, Repr

/-- The mutable fields of the `CircuitBreaker` dataclass. -/
structure CircuitBreaker where
  config : CircuitBreakerConfig
  state : CircuitState
  failure_count : Nat
  success_count : Nat
  half_open_calls : Nat
  last_failure_time : Option ℤ
  last_success_time : Option ℤ
  state_changed_at : ℤ
  total_calls : Nat
  total_failures : Nat
  total_successes : Nat
  deriving DecidableEq, Repr

namespace CircuitBreaker

/-- A freshly constructed breaker (`CircuitBreaker(name, config)` dataclass
defaults); `now` is the construction instant for `_state_changed_at`. -/
def init (config : CircuitBreakerConfig) (now : ℤ) : CircuitBreaker :=
  { config := config
    state := .closed
    failure_count := 0
    success_count := 0
    half_open_calls := 0
    last_failure_time := none
    last_success_time := none
    state_changed_at := now
    total_calls := 0
    total_failures := 0
    total_successes := 0 }

/-- `CircuitBreaker._transition_to`. -/
def transition_to (now : ℤ) (new_state : CircuitState) (cb : CircuitBreaker) :
    CircuitBreaker :=
  let cb := { cb with state := new_state, state_changed_at := now }
  match new_state with
  | .halfOpen => { cb with half_open_calls := 0, success_count := 0 }
  | .closed => { cb with failure_count := 0, half_open_calls := 0 }
  | .opened => cb

/-- `CircuitBreaker._check_state_transition`: lazily performs the timed
Open → HalfOpen transition when `recovery_timeout` has elapsed since the
last failure. -/
def check_state_transition (now : ℤ) (cb : CircuitBreaker) : CircuitBreaker :=
  match cb.state, cb.last_failure_time with
  | .opened, some t =>
      if cb.config.recovery_timeout ≤ now - t then transition_to now .halfOpen cb
      else cb
  | _, _ => cb

/-- `CircuitBreaker.can_execute`: returns the boolean answer and the breaker
after the call (the call mutates the breaker under its lock). -/
def can_execute (now : ℤ) (cb : CircuitBreaker) : Bool × CircuitBreaker :=
  let cb := check_state_transition now cb
  match cb.state with
  | .closed => (true, cb)
  | .opened => (false, cb)
  | .halfOpen =>
      if cb.half_open_calls < cb.config.half_open_max_calls then
        (true, { cb with half_open_calls := cb.half_open_calls + 1 })
      else (false, cb)

/-- `CircuitBreaker.record_success`. -/
def record_success (now : ℤ) (cb : CircuitBreaker) : CircuitBreaker :=
  let cb := { cb with
    total_calls := cb.total_calls + 1
    total_successes := cb.total_successes + 1
    last_success_time := some now
    failure_count := 0 }
  match cb.state with
  | .halfOpen =>
      let cb := { cb with success_count := cb.success_count + 1 }
      if cb.config.success_threshold ≤ cb.success_count then
        transition_to now .closed cb
      else cb
  | _ => cb

/-- `CircuitBreaker.record_failure`. -/
def record_failure (now : ℤ) (cb : CircuitBreaker) : CircuitBreaker :=
  let cb := { cb with
    total_calls := cb.total_calls + 1
    total_failures := cb.total_failures + 1
    failure_count := cb.failure_count + 1
    last_failure_time := some now }
  match cb.state with
  | .closed =>
      if cb.config.failure_threshold ≤ cb.failure_count then
        transition_to now .opened cb
      else cb
  | .halfOpen => transition_to now .opened cb
  | .opened => cb

/-- A sequence of `record_failure` calls at the given instants. -/
def record_failures (cb : CircuitBreaker) (ts : List ℤ) : CircuitBreaker :=
  ts.foldl (fun c t => record_failure t c) cb

/-- A sequence of `record_success` calls at the given instants. -/
def record_successes (cb : CircuitBreaker) (ts : List ℤ) : CircuitBreaker :=
  ts.foldl (fun c t => record_success t c) cb

end CircuitBreaker

/-- The configuration `get_psi_circuit_breaker` installs in
`app/services/circuit_breaker.py` (the AI breaker uses the same numbers). -/
def psiBreakerConfig : CircuitBreakerConfig :=
  { failure_threshold := 3
    recovery_timeout := 60
    half_open_max_calls := 1
    success_threshold := 2 }

section CircuitBreakerLemmas

open CircuitBreaker

theorem record_failure_config (t : ℤ) (cb : CircuitBreaker) :
    (record_failure t cb).config = cb.config := by
  simp only [record_failure, transition_to]
  cases cb.state
  · simp only []
    split <;> rfl
  · rfl
  · rfl

theorem record_success_config (t : ℤ) (cb : CircuitBreaker) :
    (record_success t cb).config = cb.config := by
  simp only [record_success, transition_to]
  cases cb.state
  · rfl
  · rfl
  · simp only []
    split <;> rfl

/-- In `CLOSED`, a failure that does not yet reach the threshold just
increments the consecutive-failure counter. -/
theorem record_failure_closed_below (t : ℤ) (cb : CircuitBreaker)
    (hs : cb.state = .closed)
    (h : ¬ cb.config.failure_threshold ≤ cb.failure_count + 1) :
    (record_failure t cb).state = .closed ∧
      (record_failure t cb).failure_count = cb.failure_count + 1 := by
  simp only [record_failure, hs]
  simp [h]

/-- From `CLOSED`, once consecutive failures reach the threshold the breaker
opens: iterating `record_failure` over exactly the missing number of failures
ends in `OPEN`. -/
theorem record_failures_opens (ts : List ℤ) (cb : CircuitBreaker)
    (hs : cb.state = .closed)
    (hlen : cb.config.failure_threshold = cb.failure_count + ts.length)
    (hne : ts ≠ []) :
    (record_failures cb ts).state = .opened := by
  induction ts generalizing cb with
  | nil => exact absurd rfl hne
  | cons t ts ih =>
    by_cases hts : ts = []
    · subst hts
      simp only [List.length_cons, List.length_nil, Nat.zero_add] at hlen
      simp only [record_failures, List.foldl_cons, List.foldl_nil]
      simp only [record_failure, hs]
      simp [hlen, transition_to]
    · have hlt : ¬ cb.config.failure_threshold ≤ cb.failure_count + 1 := by
        have : ts.length ≠ 0 := fun h => hts (List.eq_nil_of_length_eq_zero h)
        simp only [List.length_cons] at hlen
        omega
      have hstep := record_failure_closed_below t cb hs hlt
      have hcfg := record_failure_config t cb
      have : (record_failures cb (t :: ts)) = record_failures (record_failure t cb) ts := by
        simp [record_failures]
      rw [this]
      exact ih (record_failure t cb) hstep.1
        (by rw [hcfg, hstep.2]; simp at hlen ⊢; omega) hts

/-- In `HALF_OPEN`, a success that does not yet reach the success threshold
keeps the breaker half-open and increments `success_count`. -/
theorem record_success_halfopen_below (t : ℤ) (cb : CircuitBreaker)
    (hs : cb.state = .halfOpen)
    (h : ¬ cb.config.success_threshold ≤ cb.success_count + 1) :
    (record_success t cb).state = .halfOpen ∧
      (record_success t cb).success_count = cb.success_count + 1 := by
  simp only [record_success, hs]
  simp [h]

/-- From `HALF_OPEN`, iterating `record_success` over exactly the missing
number of successes closes the breaker. -/
theorem record_successes_closes (ts : List ℤ) (cb : CircuitBreaker)
    (hs : cb.state = .halfOpen)
    (hlen : cb.config.success_threshold = cb.success_count + ts.length)
    (hne : ts ≠ []) :
    (record_successes cb ts).state = .closed := by
  induction ts generalizing cb with
  | nil => exact absurd rfl hne
  | cons t ts ih =>
    by_cases hts : ts = []
    · subst hts
      simp only [List.length_cons, List.length_nil, Nat.zero_add] at hlen
      simp only [record_successes, List.foldl_cons, List.foldl_nil]
      simp only [record_success, hs]
      simp [hlen, transition_to]
    · have hlt : ¬ cb.config.success_threshold ≤ cb.success_count + 1 := by
        have : ts.length ≠ 0 := fun h => hts (List.eq_nil_of_length_eq_zero h)
        simp only [List.length_cons] at hlen
        omega
      have hstep := record_success_halfopen_below t cb hs hlt
      have hcfg := record_success_config t cb
      have : (record_successes cb (t :: ts)) = record_successes (record_success t cb) ts := by
        simp [record_successes]
      rw [this]
      exact ih (record_success t cb) hstep.1
        (by rw [hcfg, hstep.2]; simp at hlen ⊢; omega) hts

end CircuitBreakerLemmas

/-- C1: the circuit breaker obeys the specified state machine: (1) starting
from `CLOSED` with a clean consecutive-failure counter, `failure_threshold`
consecutive `record_failure` calls open the breaker; (2) while `OPEN`, a
`can_execute` call strictly before `recovery_timeout` seconds have elapsed
since the last failure returns `false` and keeps the breaker `OPEN`; (3) the
first `can_execute` at or after that elapse moves the breaker to `HALF_OPEN`
and returns `true` (the installed configs have `half_open_max_calls = 1 > 0`);
(4) from a fresh `HALF_OPEN` state, `success_threshold` `record_success`
calls close the breaker; (5) any single `record_failure` while `HALF_OPEN`
reopens it. -/
theorem circuit_breaker_state_machine :
    (∀ (ts : List ℤ) (cb : CircuitBreaker), cb.state = .closed →
      cb.failure_count = 0 → ts.length = cb.config.failure_threshold →
      ts ≠ [] → (CircuitBreaker.record_failures cb ts).state = .opened)
    ∧ (∀ (now t : ℤ) (cb : CircuitBreaker), cb.state = .opened →
      cb.last_failure_time = some t → now - t < cb.config.recovery_timeout →
      (CircuitBreaker.can_execute now cb).1 = false ∧
        (CircuitBreaker.can_execute now cb).2.state = .opened)
    ∧ (∀ (now t : ℤ) (cb : CircuitBreaker), cb.state = .opened →
      cb.last_failure_time = some t → cb.config.recovery_timeout ≤ now - t →
      0 < cb.config.half_open_max_calls →
      (CircuitBreaker.can_execute now cb).1 = true ∧
        (CircuitBreaker.can_execute now cb).2.state = .halfOpen)
    ∧ (∀ (ts : List ℤ) (cb : CircuitBreaker), cb.state = .halfOpen →
      cb.success_count = 0 → ts.length = cb.config.success_threshold →
      ts ≠ [] → (CircuitBreaker.record_successes cb ts).state = .closed)
    ∧ (∀ (now : ℤ) (cb : CircuitBreaker), cb.state = .halfOpen →
      (CircuitBreaker.record_failure now cb).state = .opened) := by
  refine ⟨?_, ?_, ?_, ?_, ?_⟩
  · intro ts cb hs hcount hlen hne
    exact record_failures_opens ts cb hs (by omega) hne
  · intro now t cb hs hlf hlt
    have : ¬ cb.config.recovery_timeout ≤ now - t := not_le.mpr hlt
    simp [CircuitBreaker.can_execute, CircuitBreaker.check_state_transition, hs, hlf, this]
  · intro now t cb hs hlf hle hmax
    simp [CircuitBreaker.can_execute, CircuitBreaker.check_state_transition, hs, hlf, hle,
      CircuitBreaker.transition_to, hmax]
  · intro ts cb hs hcount hlen hne
    exact record_successes_closes ts cb hs (by omega) hne
  · intro now cb hs
    simp [CircuitBreaker.record_failure, hs, CircuitBreaker.transition_to]

/-- Concrete instantiation of `circuit_breaker_state_machine` with the PSI
breaker configuration (`failure_threshold = 3`, `recovery_timeout = 60`,
`half_open_max_calls = 1`, `success_threshold = 2`). -/
theorem circuit_breaker_state_machine_witness :
    (CircuitBreaker.record_failures (CircuitBreaker.init psiBreakerConfig 0) [1, 2, 3]).state
        = .opened
    ∧ (CircuitBreaker.can_execute 10
        (CircuitBreaker.record_failures (CircuitBreaker.init psiBreakerConfig 0) [1, 2, 3])).1
        = false
    ∧ (CircuitBreaker.can_execute 100
        (CircuitBreaker.record_failures (CircuitBreaker.init psiBreakerConfig 0) [1, 2, 3])).1
        = true
    ∧ (CircuitBreaker.record_successes
        (CircuitBreaker.can_execute 100
          (CircuitBreaker.record_failures (CircuitBreaker.init psiBreakerConfig 0) [1, 2, 3])).2
        [101, 102]).state = .closed
    ∧ (CircuitBreaker.record_failure 101
        (CircuitBreaker.can_execute 100
          (CircuitBreaker.record_failures (CircuitBreaker.init psiBreakerConfig 0) [1, 2, 3])).2).state
        = .opened := by
  refine ⟨?_, ?_, ?_, ?_, ?_⟩
  · exact circuit_breaker_state_machine.1 [1, 2, 3]
      (CircuitBreaker.init psiBreakerConfig 0) rfl rfl rfl (by decide)
  · exact (circuit_breaker_state_machine.2.1 10 3
      (CircuitBreaker.record_failures (CircuitBreaker.init psiBreakerConfig 0) [1, 2, 3])
      (by decide) (by decide) (by decide)).1
  · exact (circuit_breaker_state_machine.2.2.1 100 3
      (CircuitBreaker.record_failures (CircuitBreaker.init psiBreakerConfig 0) [1, 2, 3])
      (by decide) (by decide) (by decide) (by decide)).1
  · exact circuit_breaker_state_machine.2.2.2.1 [101, 102]
      (CircuitBreaker.can_execute 100
        (CircuitBreaker.record_failures (CircuitBreaker.init psiBreakerConfig 0) [1, 2, 3])).2
      (by decide) (by decide) (by decide) (by decide)
  · exact circuit_breaker_state_machine.2.2.2.2 101
      (CircuitBreaker.can_execute 100
        (CircuitBreaker.record_failures (CircuitBreaker.init psiBreakerConfig 0) [1, 2, 3])).2
      (by decide)

/-! ## Audit orchestration (`app/core/audit.py` with `app/core/lighthouse.py`)

The audit stages call external processes and APIs; their outcomes enter the
embedding as `Except`/`Option` inputs.  `.error e` stands for a raised
exception that the orchestrator catches; for the CrUX stage `.ok none` is
"no field data available", which the source treats as a non-error. -/

/-- `Status` from `app/schemas/common.py`.  The source's `PARTIAL` is rendered
`degraded` (the source word is a Lean keyword). -/
inductive Status
  | success
  | degraded
  | failed
  deriving DecidableEq, Repr

/-- `LighthouseReport` from `app/schemas/audit.py`: per-form-factor metrics,
each optional.  The metric payload is abstract (`α`). -/
structure LighthouseReport (α : Type) where
  mobile : Option α
  desktop : Option α
  deriving DecidableEq, Repr

/-- `run_lighthouse_parallel` from `app/core/lighthouse.py`, reduced to its
control flow: each form factor either produces metrics or an error string
(every exception inside `run_mobile`/`run_desktop` is caught and turned into
`(None, error)`); if both sides failed an `AuditError` is raised, otherwise a
report with the surviving sides is returned. -/
def run_lighthouse_parallel {α : Type} (mobile_result desktop_result : Except String α) :
    Except String (LighthouseReport α) :=
  match mobile_result, desktop_result with
  | .error mobile_error, .error desktop_error =>
      .error ("Lighthouse audits failed for both mobile and desktop: " ++
        String.intercalate "; "
          ["Mobile: " ++ mobile_error, "Desktop: " ++ desktop_error])
  | m, d => .ok ⟨m.toOption, d.toOption⟩

/-- The merged audit response ( `AuditResponse` from `app/schemas/audit.py`,
restricted to the fields the merge logic writes; `insights.metrics` mirrors
`lighthouse` and `insights.ai_report` mirrors `ai_report`). -/
structure AuditResponse (α β γ : Type) where
  status : Status
  url : String
  lighthouse : LighthouseReport α
  crux : Option β
  ai_report : Option γ
  error : Option String
  deriving DecidableEq, Repr

/-- `run_audit_async` from `app/core/audit.py`, stages 3–6: the lighthouse
stage result decides between the early terminal `failed` response and the
merge; the optional CrUX and AI stages degrade gracefully (`except APIError`
/ `except Exception` set the value to `None` and record a message).  The
cache prologue/epilogue and the URL lock are not part of the merge and are
modelled with the cache itself. -/
def run_audit_async {α β γ : Type} (url : String)
    (lighthouse_result : Except String (LighthouseReport α))
    (crux_result : Except String (Option β))
    (ai_result : Except String (Option γ)) : AuditResponse α β γ :=
  match lighthouse_result with
  | .error e =>
      { status := .failed
        url := url
        lighthouse := ⟨none, none⟩
        crux := none
        ai_report := none
        error := some e }
  | .ok lighthouse =>
      let cruxStage : Option β × List String :=
        match crux_result with
        | .ok crux => (crux, [])
        | .error e => (none, ["CrUX: " ++ e])
      let aiStage : Option γ × List String :=
        match ai_result with
        | .ok ai_report => (ai_report, [])
        | .error e => (none, ["AI: " ++ e])
      let error_messages := cruxStage.2 ++ aiStage.2
      let all_succeeded := lighthouse.mobile.isSome && lighthouse.desktop.isSome
          && cruxStage.1.isSome && aiStage.1.isSome
      { status := if all_succeeded then .success else .degraded
        url := url
        lighthouse := lighthouse
        crux := cruxStage.1
        ai_report := aiStage.1
        error := if error_messages.isEmpty then none
          else some (String.intercalate "; " error_messages) }

/-- The audit execution as composed in the source: `run_audit_async` runs
`run_lighthouse_parallel` as its critical stage and merges the optional
CrUX and AI outcomes. -/
def run_full_audit {α β γ : Type} (url : String)
    (mobile_result desktop_result : Except String α)
    (crux_result : Except String (Option β))
    (ai_result : Except String (Option γ)) : AuditResponse α β γ :=
  run_audit_async url (run_lighthouse_parallel mobile_result desktop_result)
    crux_result ai_result

/-- C2: in the merged audit result, status is `success` iff mobile metrics,
desktop metrics, field data and the AI narrative are all present; it is
`failed` iff both lighthouse form factors failed (so `failed` arises only
from the lighthouse stage — the optional CrUX/AI stages never produce it);
in every remaining case it is the source's `PARTIAL` (rendered `degraded`). -/
theorem audit_status_merge :
    ∀ (α β γ : Type) (url : String) (mobile_result desktop_result : Except String α)
      (crux_result : Except String (Option β)) (ai_result : Except String (Option γ)),
      ((run_full_audit url mobile_result desktop_result crux_result ai_result).status
          = .success ↔
        ((run_full_audit url mobile_result desktop_result crux_result
              ai_result).lighthouse.mobile.isSome
          ∧ (run_full_audit url mobile_result desktop_result crux_result
              ai_result).lighthouse.desktop.isSome
          ∧ (run_full_audit url mobile_result desktop_result crux_result
              ai_result).crux.isSome
          ∧ (run_full_audit url mobile_result desktop_result crux_result
              ai_result).ai_report.isSome))
      ∧ ((run_full_audit url mobile_result desktop_result crux_result ai_result).status
          = .failed ↔
        (mobile_result.toOption = none ∧ desktop_result.toOption = none))
      ∧ ((run_full_audit url mobile_result desktop_result crux_result ai_result).status
            = .success
        ∨ (run_full_audit url mobile_result desktop_result crux_result ai_result).status
            = .failed
        ∨ (run_full_audit url mobile_result desktop_result crux_result ai_result).status
            = .degraded) := by
  intro α β γ url mobile_result desktop_result crux_result ai_result
  cases mobile_result with
  | error em =>
    cases desktop_result with
    | error ed => simp [run_full_audit, run_audit_async, run_lighthouse_parallel, Except.toOption]
    | ok d =>
      cases crux_result with
      | error ec =>
        cases ai_result with
        | error ea => simp [run_full_audit, run_audit_async, run_lighthouse_parallel, Except.toOption]
        | ok a => simp [run_full_audit, run_audit_async, run_lighthouse_parallel, Except.toOption]
      | ok c =>
        cases ai_result with
        | error ea => simp [run_full_audit, run_audit_async, run_lighthouse_parallel, Except.toOption]
        | ok a => simp [run_full_audit, run_audit_async, run_lighthouse_parallel, Except.toOption]
  | ok m =>
    cases desktop_result with
    | error ed =>
      cases crux_result with
      | error ec => simp [run_full_audit, run_audit_async, run_lighthouse_parallel, Except.toOption]
      | ok c =>
        cases ai_result with
        | error ea => simp [run_full_audit, run_audit_async, run_lighthouse_parallel, Except.toOption]
        | ok a => simp [run_full_audit, run_audit_async, run_lighthouse_parallel, Except.toOption]
    | ok d =>
      cases crux_result with
      | error ec => simp [run_full_audit, run_audit_async, run_lighthouse_parallel, Except.toOption]
      | ok c =>
        cases ai_result with
        | error ea => simp [run_full_audit, run_audit_async, run_lighthouse_parallel, Except.toOption]
        | ok a =>
          cases hc : c.isSome <;> cases ha : a.isSome <;>
            simp [run_full_audit, run_audit_async, run_lighthouse_parallel, Except.toOption, hc, ha]

/-! ## Persistent job queue (`app/services/queue.py`) -/

/-- Row status in the `audit_queue` table. -/
inductive QStatus
  | pending
  | processing
  | cancelled
  deriving DecidableEq, Repr

/-- One row of `audit_queue` (also the `QueuedJob` dataclass): `id` is the
`AUTOINCREMENT` primary key, `options` the serialized-options text column. -/
structure QueueEntry where
  id : Nat
  job_id : String
  url : String
  options : Option String
  created_at : ℤ
  status : QStatus
  deriving DecidableEq, Repr

/-- The `PersistentQueue` backing store: table rows in insertion order plus
the next `AUTOINCREMENT` id and the configured `max_size`. -/
structure PersistentQueue where
  max_size : Nat
  next_id : Nat
  entries : List QueueEntry
  deriving DecidableEq, Repr

namespace PersistentQueue

/-- `SELECT COUNT(*) FROM audit_queue WHERE status = 'pending'`
(also `PersistentQueue.size`). -/
def pendingCount (q : PersistentQueue) : Nat :=
  q.entries.countP (fun e => decide (e.status = QStatus.pending))

/-- `PersistentQueue.enqueue`: counts `pending` rows; at or above `max_size`
returns `None` without inserting, otherwise inserts a fresh `pending` row and
returns the 1-based position `count + 1`. -/
def enqueue (q : PersistentQueue) (now : ℤ) (job_id url : String)
    (options : Option String) : Option Nat × PersistentQueue :=
  let current_size := pendingCount q
  if q.max_size ≤ current_size then (none, q)
  else
    (some (current_size + 1),
      { q with
        entries := q.entries ++
          [{ id := q.next_id, job_id := job_id, url := url, options := options
             created_at := now, status := QStatus.pending }]
        next_id := q.next_id + 1 })

/-- Strict ordering used by `dequeue`'s row selection
(`ORDER BY created_at ASC LIMIT 1`, read through the `created_at` index whose
entries tie-break by rowid). -/
def entryLt (a b : QueueEntry) : Prop :=
  a.created_at < b.created_at ∨ (a.created_at = b.created_at ∧ a.id < b.id)

instance (a b : QueueEntry) : Decidable (entryLt a b) :=
  inferInstanceAs (Decidable (_ ∨ _))

/-- Reflexive companion of `entryLt`. -/
def entryLe (a b : QueueEntry) : Prop :=
  a.created_at < b.created_at ∨ (a.created_at = b.created_at ∧ a.id ≤ b.id)

instance (a b : QueueEntry) : Decidable (entryLe a b) :=
  inferInstanceAs (Decidable (_ ∨ _))

/-- The row `SELECT … ORDER BY created_at ASC LIMIT 1` returns: the
`entryLt`-least element of the list (`none` on the empty list). -/
def selectOldest : List QueueEntry → Option QueueEntry
  | [] => none
  | e :: es =>
    match selectOldest es with
    | none => some e
    | some m => if entryLt m e then some m else some e

/-- `PersistentQueue.dequeue`: selects the oldest `pending` row, marks that
row `processing` in the same transaction, and returns it (the returned
`QueuedJob` carries `status="processing"`). -/
def dequeue (q : PersistentQueue) : Option QueueEntry × PersistentQueue :=
  match selectOldest (q.entries.filter (fun e => decide (e.status = QStatus.pending))) with
  | none => (none, q)
  | some row =>
      (some { row with status := QStatus.processing },
        { q with
          entries := q.entries.map (fun e =>
            if e.id = row.id then { e with status := QStatus.processing } else e) })

/-- `PersistentQueue.remove`: `DELETE FROM audit_queue WHERE job_id = ?`;
returns whether any row was deleted. -/
def remove (q : PersistentQueue) (job_id : String) : Bool × PersistentQueue :=
  (q.entries.any (fun e => e.job_id == job_id),
    { q with entries := q.entries.filter (fun e => !(e.job_id == job_id)) })

/-- `PersistentQueue.cancel`: flips `pending` rows with this `job_id` to
`cancelled`; returns whether any row changed. -/
def cancel (q : PersistentQueue) (job_id : String) : Bool × PersistentQueue :=
  (q.entries.any (fun e => e.job_id == job_id && e.status == QStatus.pending),
    { q with
      entries := q.entries.map (fun e =>
        if e.job_id = job_id ∧ e.status = QStatus.pending then
          { e with status := QStatus.cancelled }
        else e) })

/-- The `WHERE` clause of `cleanup_stale`: a `processing` or `cancelled` row
older than `max_age_seconds`. -/
def isStale (now max_age_seconds : ℤ) (e : QueueEntry) : Bool :=
  (e.status == QStatus.processing || e.status == QStatus.cancelled)
    && decide (e.created_at < now - max_age_seconds)

/-- `PersistentQueue.cleanup_stale`: deletes stale rows, returning the count. -/
def cleanup_stale (q : PersistentQueue) (now max_age_seconds : ℤ) :
    Nat × PersistentQueue :=
  (q.entries.countP (isStale now max_age_seconds),
    { q with entries := q.entries.filter (fun e => !(isStale now max_age_seconds e)) })

/-- `PersistentQueue.requeue_processing`: flips every `processing` row back to
`pending` (crash recovery), returning the count. -/
def requeue_processing (q : PersistentQueue) : Nat × PersistentQueue :=
  (q.entries.countP (fun e => decide (e.status = QStatus.processing)),
    { q with
      entries := q.entries.map (fun e =>
        if e.status = QStatus.processing then { e with status := QStatus.pending }
        else e) })

end PersistentQueue

/-- One queue operation, for reasoning about operation sequences. -/
inductive QOp
  | enqueue (now : ℤ) (job_id url : String) (options : Option String)
  | dequeue
  | cancel (job_id : String)
  | remove (job_id : String)
  | cleanup_stale (now max_age_seconds : ℤ)
  | requeue_processing
  deriving DecidableEq, Repr

/-- Apply one queue operation, dropping the returned value. -/
def applyQOp (q : PersistentQueue) : QOp → PersistentQueue
  | .enqueue now job_id url options => (q.enqueue now job_id url options).2
  | .dequeue => q.dequeue.2
  | .cancel job_id => (q.cancel job_id).2
  | .remove job_id => (q.remove job_id).2
  | .cleanup_stale now max_age => (q.cleanup_stale now max_age).2
  | .requeue_processing => q.requeue_processing.2

/-- Apply a sequence of queue operations. -/
def applyQOps (q : PersistentQueue) (ops : List QOp) : PersistentQueue :=
  ops.foldl applyQOp q

/-- A freshly initialised queue: empty table, first `AUTOINCREMENT` id 1. -/
def emptyQueue (max_size : Nat) : PersistentQueue :=
  { max_size := max_size, next_id := 1, entries := [] }

section QueueLemmas

open PersistentQueue

theorem countP_map_le_of_imp {α : Type} (f : α → α) (p : α → Bool)
    (h : ∀ x, p (f x) = true → p x = true) :
    ∀ l : List α, (l.map f).countP p ≤ l.countP p := by
  intro l
  induction l with
  | nil => simp
  | cons x xs ih =>
    simp only [List.map_cons, List.countP_cons]
    cases hx : p (f x) with
    | false =>
      simp [hx, -List.countP_map]
      omega
    | true =>
      simp [hx, h x hx, -List.countP_map]
      omega

theorem countP_filter_le {α : Type} (p q : α → Bool) (l : List α) :
    (l.filter q).countP p ≤ l.countP p := by
  induction l with
  | nil => simp
  | cons x xs ih =>
    cases hq : q x with
    | false =>
      simp [List.filter_cons, hq, List.countP_cons]
      omega
    | true =>
      simp [List.filter_cons, hq, List.countP_cons]
      omega

theorem applyQOp_max_size (q : PersistentQueue) (op : QOp) :
    (applyQOp q op).max_size = q.max_size := by
  cases op with
  | enqueue now job_id url options =>
    simp only [applyQOp, PersistentQueue.enqueue]
    split <;> rfl
  | dequeue =>
    simp only [applyQOp, PersistentQueue.dequeue]
    split <;> rfl
  | cancel job_id => rfl
  | remove job_id => rfl
  | cleanup_stale now max_age => rfl
  | requeue_processing => rfl

/-- Every operation other than `requeue_processing` keeps the `pending` count
at or below `max_size` once it is there. -/
theorem applyQOp_pending_le (q : PersistentQueue) (op : QOp)
    (hop : op ≠ QOp.requeue_processing) (h : pendingCount q ≤ q.max_size) :
    pendingCount (applyQOp q op) ≤ q.max_size := by
  cases op with
  | enqueue now job_id url options =>
    simp only [applyQOp, PersistentQueue.enqueue]
    split
    next hfull => exact h
    next hfull =>
      simp only [pendingCount] at hfull ⊢
      simp only [List.countP_append, List.countP_cons, List.countP_nil]
      simp only [decide_eq_true_eq]
      simp
      omega
  | dequeue =>
    simp only [applyQOp, PersistentQueue.dequeue]
    cases hsel : selectOldest (q.entries.filter (fun e => decide (e.status = QStatus.pending))) with
    | none => simp only [hsel]; exact h
    | some row =>
      simp only [hsel]
      refine le_trans ?_ h
      refine countP_map_le_of_imp _ _ ?_ q.entries
      intro x hx
      by_cases hid : x.id = row.id
      · simp [hid] at hx
      · simpa [hid] using hx
  | cancel job_id =>
    simp only [applyQOp, PersistentQueue.cancel]
    refine le_trans ?_ h
    refine countP_map_le_of_imp _ _ ?_ q.entries
    intro x hx
    by_cases hc : x.job_id = job_id ∧ x.status = QStatus.pending
    · simp [hc] at hx
    · simpa [hc] using hx
  | remove job_id =>
    simp only [applyQOp, PersistentQueue.remove]
    exact le_trans (countP_filter_le _ _ q.entries) h
  | cleanup_stale now max_age =>
    simp only [applyQOp, PersistentQueue.cleanup_stale]
    exact le_trans (countP_filter_le _ _ q.entries) h
  | requeue_processing => exact absurd rfl hop

/-- The bound is preserved along any `requeue_processing`-free sequence. -/
theorem applyQOps_pending_le (ops : List QOp) :
    ∀ q : PersistentQueue, (∀ op ∈ ops, op ≠ QOp.requeue_processing) →
      pendingCount q ≤ q.max_size →
      pendingCount (applyQOps q ops) ≤ q.max_size := by
  induction ops with
  | nil =>
    intro q _ hq
    exact hq
  | cons op ops ih =>
    intro q hop hq
    have h1 : pendingCount (applyQOp q op) ≤ q.max_size :=
      applyQOp_pending_le q op (hop op (List.mem_cons_self op ops)) hq
    have hmax := applyQOp_max_size q op
    have h2 := ih (applyQOp q op) (fun o ho => hop o (List.mem_cons_of_mem op ho))
      (by rw [hmax]; exact h1)
    rw [hmax] at h2
    simpa [applyQOps] using h2

end QueueLemmas

/-- C4 (amended): starting from an empty queue, over every sequence of
`enqueue`, `dequeue`, `cancel`, `remove`, `cleanup_stale` operations the
count of `pending` rows never exceeds `max_size`; in particular `enqueue`
returns `None` and leaves the queue unchanged when the pending count is
already at `max_size`.  (`requeue_processing` is excluded: it does NOT
preserve the bound — see `queue_pending_bound_counterexample`.) -/
theorem queue_pending_bounded :
    (∀ (max_size : Nat) (ops : List QOp),
      (∀ op ∈ ops, op ≠ QOp.requeue_processing) →
      PersistentQueue.pendingCount (applyQOps (emptyQueue max_size) ops) ≤ max_size)
    ∧ (∀ (q : PersistentQueue) (now : ℤ) (job_id url : String)
        (options : Option String),
      q.max_size ≤ PersistentQueue.pendingCount q →
      q.enqueue now job_id url options = (none, q)) := by
  constructor
  · intro max_size ops hops
    exact applyQOps_pending_le ops (emptyQueue max_size) hops
      (by simp [emptyQueue, PersistentQueue.pendingCount])
  · intro q now job_id url options hfull
    simp [PersistentQueue.enqueue, hfull]

/-- Concrete instantiation of `queue_pending_bounded`: two enqueues into a
queue of capacity 1 leave at most one pending row, and an enqueue into a full
queue returns `None` unchanged. -/
theorem queue_pending_bounded_witness :
    PersistentQueue.pendingCount
      (applyQOps (emptyQueue 1)
        [QOp.enqueue 0 "a" "u" none, QOp.enqueue 1 "b" "u" none]) ≤ 1
    ∧ (applyQOps (emptyQueue 1) [QOp.enqueue 0 "a" "u" none]).enqueue 1 "b" "u" none
        = (none, applyQOps (emptyQueue 1) [QOp.enqueue 0 "a" "u" none]) := by
  constructor
  · exact queue_pending_bounded.1 1
      [QOp.enqueue 0 "a" "u" none, QOp.enqueue 1 "b" "u" none]
      (by decide)
  · exact queue_pending_bounded.2
      (applyQOps (emptyQueue 1) [QOp.enqueue 0 "a" "u" none]) 1 "b" "u" none
      (by decide)

/-- The operation sequence refuting the claimed bound for
`requeue_processing`: enqueue, dequeue (row goes `processing`), enqueue (the
size check sees zero pending rows), then crash-recovery requeue. -/
def overflowOps : List QOp :=
  [QOp.enqueue 0 "a" "u" none, QOp.dequeue, QOp.enqueue 1 "b" "u" none,
    QOp.requeue_processing]

/-- C4 counterexample: with `max_size = 1`, the sequence `enqueue; dequeue;
enqueue; requeue_processing` (all operations from the claim's list, starting
from the empty queue) ends with 2 pending rows — `requeue_processing` does
not preserve the `pending ≤ MaxQueueSize` bound. -/
theorem queue_pending_bound_counterexample :
    (emptyQueue 1).max_size = 1
    ∧ PersistentQueue.pendingCount (applyQOps (emptyQueue 1) overflowOps) = 2 := by
  constructor
  · rfl
  · decide

section DequeueLemmas

open PersistentQueue

theorem entryLe_refl (a : QueueEntry) : entryLe a a := by
  unfold entryLe
  omega

theorem entryLe_of_lt {a b : QueueEntry} (h : entryLt a b) : entryLe a b := by
  unfold entryLt at h
  unfold entryLe
  omega

theorem entryLe_of_not_lt {a b : QueueEntry} (h : ¬ entryLt a b) : entryLe b a := by
  unfold entryLt at h
  unfold entryLe
  omega

theorem entryLe_trans {a b c : QueueEntry} (h1 : entryLe a b) (h2 : entryLe b c) :
    entryLe a c := by
  unfold entryLe at h1 h2 ⊢
  omega

theorem selectOldest_eq_none {l : List QueueEntry} :
    selectOldest l = none ↔ l = [] := by
  cases l with
  | nil => simp [selectOldest]
  | cons e es =>
    constructor
    · intro h
      exfalso
      simp only [selectOldest] at h
      cases hsel : selectOldest es with
      | none => simp [hsel] at h
      | some m =>
        simp only [hsel] at h
        by_cases hlt : entryLt m e
        · simp [if_pos hlt] at h
        · simp [if_neg hlt] at h
    · intro h
      exact absurd h (List.cons_ne_nil e es)

/-- The element `selectOldest` returns is a member of the list and is
`entryLe`-below every member. -/
theorem selectOldest_spec {l : List QueueEntry} {m : QueueEntry}
    (h : selectOldest l = some m) : m ∈ l ∧ ∀ x ∈ l, entryLe m x := by
  induction l generalizing m with
  | nil => simp [selectOldest] at h
  | cons e es ih =>
    simp only [selectOldest] at h
    cases hsel : selectOldest es with
    | none =>
      simp only [hsel] at h
      have hes : es = [] := selectOldest_eq_none.mp hsel
      subst hes
      obtain rfl : e = m := Option.some.inj h
      exact ⟨List.mem_cons_self e [], by
        intro x hx
        rcases List.mem_cons.mp hx with rfl | hx'
        · exact entryLe_refl x
        · simp at hx'⟩
    | some m' =>
      simp only [hsel] at h
      obtain ⟨hmem, hmin⟩ := ih hsel
      by_cases hlt : entryLt m' e
      · rw [if_pos hlt] at h
        obtain rfl : m' = m := Option.some.inj h
        refine ⟨List.mem_cons_of_mem e hmem, ?_⟩
        intro x hx
        rcases List.mem_cons.mp hx with rfl | hx'
        · exact entryLe_of_lt hlt
        · exact hmin x hx'
      · rw [if_neg hlt] at h
        obtain rfl : e = m := Option.some.inj h
        refine ⟨List.mem_cons_self _ _, ?_⟩
        intro x hx
        rcases List.mem_cons.mp hx with rfl | hx'
        · exact entryLe_refl x
        · exact entryLe_trans (entryLe_of_not_lt hlt) (hmin x hx')

end DequeueLemmas

/-- C5: `dequeue` returns `None` iff the queue holds no `pending` row;
otherwise it returns the oldest `pending` row — least by `created_at`, ties
broken by insertion id — restamped `processing`, and the only table change is
that this row's status becomes `processing` in the same transaction. -/
theorem dequeue_fifo (q : PersistentQueue) :
    (q.dequeue.1 = none ↔ ∀ e ∈ q.entries, e.status ≠ QStatus.pending)
    ∧ ∀ row, q.dequeue.1 = some row →
        ∃ e, e ∈ q.entries ∧ e.status = QStatus.pending
          ∧ row = { e with status := QStatus.processing }
          ∧ (∀ x ∈ q.entries, x.status = QStatus.pending → PersistentQueue.entryLe e x)
          ∧ q.dequeue.2.entries = q.entries.map (fun x =>
              if x.id = e.id then { x with status := QStatus.processing } else x)
          ∧ q.dequeue.2.max_size = q.max_size
          ∧ q.dequeue.2.next_id = q.next_id := by
  unfold PersistentQueue.dequeue
  cases hsel : PersistentQueue.selectOldest
      (q.entries.filter fun e => decide (e.status = QStatus.pending)) with
  | none =>
    simp only [hsel]
    have hnil := selectOldest_eq_none.mp hsel
    constructor
    · constructor
      · intro _ e he hp
        have hmem : e ∈ q.entries.filter fun e => decide (e.status = QStatus.pending) :=
          List.mem_filter.mpr ⟨he, by simp [hp]⟩
        rw [hnil] at hmem
        simp at hmem
      · intro _
        trivial
    · intro row h
      simp at h
  | some m =>
    simp only [hsel]
    have hspec := selectOldest_spec hsel
    have hmem := List.mem_filter.mp hspec.1
    constructor
    · constructor
      · intro h
        simp at h
      · intro hall
        exact absurd (by simpa using hmem.2) (hall m hmem.1)
    · intro row h
      have hrow : row = { m with status := QStatus.processing } :=
        (Option.some.inj h).symm
      refine ⟨m, hmem.1, by simpa using hmem.2, hrow, ?_, ?_, ?_, ?_⟩
      · intro x hx hpx
        exact hspec.2 x (List.mem_filter.mpr ⟨hx, by simp [hpx]⟩)
      · rfl
      · trivial
      · trivial

/-- A queue with one `processing` row and two `pending` rows that tie on
`created_at`; the tie must break towards the smaller insertion id. -/
def sampleQueue : PersistentQueue :=
  { max_size := 50
    next_id := 4
    entries :=
      [{ id := 1, job_id := "a", url := "u", options := none, created_at := 7,
         status := QStatus.processing },
       { id := 2, job_id := "b", url := "u", options := none, created_at := 5,
         status := QStatus.pending },
       { id := 3, job_id := "c", url := "u", options := none, created_at := 5,
         status := QStatus.pending }] }

/-- The row `dequeue` hands back for `sampleQueue`. -/
def sampleRow : QueueEntry :=
  { id := 2, job_id := "b", url := "u", options := none, created_at := 5,
    status := QStatus.processing }

/-- Concrete instantiation of `dequeue_fifo` on `sampleQueue`: the returned
row is the pending row with the earliest `created_at` and, among the tie, the
smallest insertion id. -/
theorem dequeue_fifo_witness :
    sampleQueue.dequeue.1 = some sampleRow
    ∧ ∃ e, e ∈ sampleQueue.entries ∧ e.status = QStatus.pending
        ∧ sampleRow = { e with status := QStatus.processing }
        ∧ (∀ x ∈ sampleQueue.entries, x.status = QStatus.pending →
            PersistentQueue.entryLe e x)
        ∧ sampleQueue.dequeue.2.entries = sampleQueue.entries.map (fun x =>
            if x.id = e.id then { x with status := QStatus.processing } else x)
        ∧ sampleQueue.dequeue.2.max_size = sampleQueue.max_size
        ∧ sampleQueue.dequeue.2.next_id = sampleQueue.next_id :=
  ⟨by decide, (dequeue_fifo sampleQueue).2 sampleRow (by decide)⟩

/-! ## Job registry (`app/services/jobs.py`) and dispatch
(`app/api/v1/routes/audits.py`) -/

/-- `JobStatus`. -/
inductive JobStatus
  | pending
  | queued
  | running
  | completed
  | failed
  deriving DecidableEq, Repr

/-- The `.value` string of a `JobStatus` member. -/
def JobStatus.value : JobStatus → String
  | .pending => "pending"
  | .queued => "queued"
  | .running => "running"
  | .completed => "completed"
  | .failed => "failed"

/-- `AuditStage`. -/
inductive AuditStage
  | lighthouseMobile
  | lighthouseDesktop
  | crux
  | aiAnalysis
  deriving DecidableEq, Repr

/-- The `.value` string of an `AuditStage` member. -/
def AuditStage.value : AuditStage → String
  | .lighthouseMobile => "lighthouse_mobile"
  | .lighthouseDesktop => "lighthouse_desktop"
  | .crux => "crux"
  | .aiAnalysis => "ai_analysis"

/-- The `Job` dataclass; the result payload is kept opaque as its serialized
form. -/
structure Job where
  id : String
  status : JobStatus
  url : String
  current_stage : Option AuditStage
  completed_stages : List AuditStage
  result : Option String
  error : Option String
  created_at : ℤ
  queue_position : Option Nat
  deriving DecidableEq, Repr

/-- One `websocket_manager.enqueue_broadcast(job_id, stage, progress, status)`
call, recorded as data. -/
structure BroadcastEvent where
  job_id : String
  stage : String
  progress : Nat
  status : String
  deriving DecidableEq, Repr

/-- `JobStore`: the in-memory registry.  `jobs` and `ip_limits` model the two
Python dicts (insertion-ordered association lists with unique keys); the
per-IP sets of active job ids are duplicate-free lists; `events` records the
broadcasts the store emitted. -/
structure JobStore where
  jobs : List (String × Job)
  ip_limits : List (String × List String)
  max_jobs_per_ip : Nat
  events : List BroadcastEvent
  deriving DecidableEq, Repr

/-- Python `dict` lookup on an insertion-ordered association list. -/
def alistLookup {β : Type} : List (String × β) → String → Option β
  | [], _ => none
  | (k, v) :: rest, key => if k = key then some v else alistLookup rest key

/-- Python `dict` assignment: update an existing key in place, append a new
key at the end. -/
def alistUpdate {β : Type} : List (String × β) → String → β → List (String × β)
  | [], key, v => [(key, v)]
  | (k, w) :: rest, key, v =>
      if k = key then (k, v) :: rest else (k, w) :: alistUpdate rest key v

/-- Python `del d[key]` (with no error when absent, as a plain filter). -/
def alistRemoveKey {β : Type} (l : List (String × β)) (key : String) :
    List (String × β) :=
  l.filter (fun kv => decide (kv.1 ≠ key))

/-- Python `set.add` on a duplicate-free list. -/
def setAdd (s : List String) (x : String) : List String :=
  if x ∈ s then s else s ++ [x]

/-- Python `set.discard`. -/
def setDiscard (s : List String) (x : String) : List String :=
  s.filter (fun y => decide (y ≠ x))

namespace JobStore

/-- `JobStore._get_progress`: `int(len(completed_stages) / 4 * 100)`. -/
def get_progress (job : Job) : Nat :=
  job.completed_stages.length * 100 / 4

/-- `JobStore.create_job`: per-IP quota check, then mint the job (the fresh
`uuid4` enters as `new_job_id`, `now` is the creation instant). -/
def create_job (st : JobStore) (url client_ip new_job_id : String) (now : ℤ) :
    Option String × JobStore :=
  let active_jobs := (alistLookup st.ip_limits client_ip).getD []
  if st.max_jobs_per_ip ≤ active_jobs.length then (none, st)
  else
    let job : Job :=
      { id := new_job_id, status := .pending, url := url, current_stage := none
        completed_stages := [], result := none, error := none, created_at := now
        queue_position := none }
    (some new_job_id,
      { st with
        jobs := alistUpdate st.jobs new_job_id job
        ip_limits := alistUpdate st.ip_limits client_ip (setAdd active_jobs new_job_id) })

/-- `JobStore.get_job`. -/
def get_job (st : JobStore) (job_id : String) : Option Job :=
  alistLookup st.jobs job_id

/-- `JobStore.update_stage`: when the job exists, set it Running on the given
stage and broadcast; silently do nothing otherwise. -/
def update_stage (st : JobStore) (job_id : String) (stage : AuditStage) : JobStore :=
  match alistLookup st.jobs job_id with
  | none => st
  | some job =>
      let job := { job with status := JobStatus.running, current_stage := some stage }
      { st with
        jobs := alistUpdate st.jobs job_id job
        events := st.events ++
          [{ job_id := job_id, stage := stage.value, progress := get_progress job
             status := JobStatus.value .running }] }

/-- `JobStore.complete_stage`: append the stage and broadcast the new
progress. -/
def complete_stage (st : JobStore) (job_id : String) (stage : AuditStage) : JobStore :=
  match alistLookup st.jobs job_id with
  | none => st
  | some job =>
      let job := { job with completed_stages := job.completed_stages ++ [stage] }
      let current_stage_str :=
        match job.current_stage with
        | some s => s.value
        | none => ""
      { st with
        jobs := alistUpdate st.jobs job_id job
        events := st.events ++
          [{ job_id := job_id, stage := current_stage_str
             progress := get_progress job, status := job.status.value }] }

/-- `JobStore.complete_job`: mark Completed, store the result, broadcast
progress 100, and discard the job id from every per-IP set. -/
def complete_job (st : JobStore) (job_id : String) (result : String) : JobStore :=
  match alistLookup st.jobs job_id with
  | none => st
  | some job =>
      let job := { job with
        status := JobStatus.completed
        result := some result
        current_stage := none }
      { st with
        jobs := alistUpdate st.jobs job_id job
        events := st.events ++
          [{ job_id := job_id, stage := "", progress := 100
             status := job.status.value }]
        ip_limits := st.ip_limits.map (fun kv => (kv.1, setDiscard kv.2 job_id)) }

/-- `JobStore.fail_job`: mark Failed with the error, broadcast, and discard
the job id from every per-IP set. -/
def fail_job (st : JobStore) (job_id : String) (error : String) : JobStore :=
  match alistLookup st.jobs job_id with
  | none => st
  | some job =>
      let job := { job with
        status := JobStatus.failed
        error := some error
        current_stage := none }
      { st with
        jobs := alistUpdate st.jobs job_id job
        events := st.events ++
          [{ job_id := job_id, stage := "", progress := get_progress job
             status := job.status.value }]
        ip_limits := st.ip_limits.map (fun kv => (kv.1, setDiscard kv.2 job_id)) }

/-- `JobStore.update_job_status_and_position`; returns whether the job
exists. -/
def update_job_status_and_position (st : JobStore) (job_id : String)
    (status : JobStatus) (queue_position : Option Nat) (error : Option String) :
    Bool × JobStore :=
  match alistLookup st.jobs job_id with
  | none => (false, st)
  | some job =>
      let job := { job with
        status := status
        queue_position := queue_position
        error := match error with
          | some e => some e
          | none => job.error }
      (true, { st with jobs := alistUpdate st.jobs job_id job })

/-- `JobStore.remove_job`: delete the job, discard its id from every per-IP
set, and prune per-IP entries whose set became (or already was) empty. -/
def remove_job (st : JobStore) (job_id : String) : Bool × JobStore :=
  let existed := (alistLookup st.jobs job_id).isSome
  (existed,
    { st with
      jobs := alistRemoveKey st.jobs job_id
      ip_limits :=
        (st.ip_limits.map (fun kv => (kv.1, setDiscard kv.2 job_id))).filter
          (fun kv => decide (kv.2 ≠ [])) })

/-- `JobStore.update_queue_position`; returns whether the job exists. -/
def update_queue_position (st : JobStore) (job_id : String)
    (queue_position : Option Nat) : Bool × JobStore :=
  match alistLookup st.jobs job_id with
  | none => (false, st)
  | some job =>
      (true,
        { st with jobs := alistUpdate st.jobs job_id { job with queue_position := queue_position } })

end JobStore

/-- The per-client set of active job ids (`ip_limits.get(client_ip, set())`). -/
def activeJobs (st : JobStore) (client_ip : String) : List String :=
  (alistLookup st.ip_limits client_ip).getD []

/-- `ConcurrencyManager` (`app/services/concurrency.py`): the non-blocking
counter side used by the dispatch path. -/
structure ConcurrencyManager where
  max_concurrent : Nat
  active_count : Nat
  deriving DecidableEq, Repr

namespace ConcurrencyManager

/-- `ConcurrencyManager.try_acquire`. -/
def try_acquire (cm : ConcurrencyManager) : Bool × ConcurrencyManager :=
  if cm.max_concurrent ≤ cm.active_count then (false, cm)
  else (true, { cm with active_count := cm.active_count + 1 })

/-- `ConcurrencyManager.release` (clamped at zero). -/
def release (cm : ConcurrencyManager) : ConcurrencyManager :=
  if 0 < cm.active_count then { cm with active_count := cm.active_count - 1 }
  else cm

end ConcurrencyManager

/-- The shared mutable state the `create_audit` route touches. -/
structure DispatchState where
  job_store : JobStore
  concurrency : ConcurrencyManager
  queue : PersistentQueue
  deriving DecidableEq, Repr

/-- The four observable outcomes of POST `/v1/audit`: HTTP 429, 200 with
status Pending, 200 with status Queued and a position, HTTP 503. -/
inductive CreateAuditOutcome
  | rateLimited
  | pending (job_id : String)
  | queued (job_id : String) (position : Nat)
  | queueFull
  deriving DecidableEq, Repr

/-- `create_audit` (`app/api/v1/routes/audits.py`), from the
`JobStore.create_job` call onward (the opportunistic `cleanup_expired` and
URL validation precede this and are not part of the admission decision):
quota rejection → 429; `try_acquire` success → Pending; otherwise enqueue,
where a full queue removes the just-created job and answers 503, and a
position marks the job Queued at that position. -/
def create_audit (st : DispatchState) (url client_ip new_job_id : String)
    (now : ℤ) (options : Option String) : CreateAuditOutcome × DispatchState :=
  let created := JobStore.create_job st.job_store url client_ip new_job_id now
  match created.1 with
  | none => (.rateLimited, { st with job_store := created.2 })
  | some job_id =>
      let acq := st.concurrency.try_acquire
      if acq.1 then
        (.pending job_id,
          { job_store := created.2, concurrency := acq.2, queue := st.queue })
      else
        let enq := st.queue.enqueue now job_id url options
        match enq.1 with
        | none =>
            (.queueFull,
              { job_store := (JobStore.remove_job created.2 job_id).2
                concurrency := acq.2, queue := enq.2 })
        | some queue_position =>
            (.queued job_id queue_position,
              { job_store := (JobStore.update_job_status_and_position created.2
                  job_id .queued (some queue_position) none).2
                concurrency := acq.2, queue := enq.2 })

/-- C10: every `JobStore` mutator applied to a job id absent from the
registry is a no-op — it raises nothing (the embedding is total), leaves the
whole store (job map, per-IP sets, events) unchanged, and the
boolean-returning mutators answer `False`. -/
theorem jobstore_missing_id_noop (st : JobStore) (job_id : String)
    (h : alistLookup st.jobs job_id = none) :
    (∀ stage, JobStore.update_stage st job_id stage = st)
    ∧ (∀ stage, JobStore.complete_stage st job_id stage = st)
    ∧ (∀ result, JobStore.complete_job st job_id result = st)
    ∧ (∀ error, JobStore.fail_job st job_id error = st)
    ∧ (∀ status queue_position error,
        JobStore.update_job_status_and_position st job_id status queue_position error
          = (false, st))
    ∧ (∀ queue_position,
        JobStore.update_queue_position st job_id queue_position = (false, st)) := by
  refine ⟨?_, ?_, ?_, ?_, ?_, ?_⟩
  · intro stage
    simp [JobStore.update_stage, h]
  · intro stage
    simp [JobStore.complete_stage, h]
  · intro result
    simp [JobStore.complete_job, h]
  · intro error
    simp [JobStore.fail_job, h]
  · intro status queue_position error
    simp [JobStore.update_job_status_and_position, h]
  · intro queue_position
    simp [JobStore.update_queue_position, h]

/-- A registry holding one unrelated job, for instantiating the no-op
theorem. -/
def sampleJobStore : JobStore :=
  { jobs := [("j1",
      { id := "j1", status := JobStatus.running, url := "https://a.example"
        current_stage := some AuditStage.crux
        completed_stages := [AuditStage.lighthouseMobile, AuditStage.lighthouseDesktop]
        result := none, error := none, created_at := 0, queue_position := none })]
    ip_limits := [("10.0.0.1", ["j1"])]
    max_jobs_per_ip := 5
    events := [] }

/-- Concrete instantiation of `jobstore_missing_id_noop` on `sampleJobStore`
with the absent id `"missing"`. -/
theorem jobstore_missing_id_noop_witness :
    JobStore.update_stage sampleJobStore "missing" AuditStage.crux = sampleJobStore
    ∧ JobStore.complete_stage sampleJobStore "missing" AuditStage.crux = sampleJobStore
    ∧ JobStore.complete_job sampleJobStore "missing" "r" = sampleJobStore
    ∧ JobStore.fail_job sampleJobStore "missing" "boom" = sampleJobStore
    ∧ JobStore.update_job_status_and_position sampleJobStore "missing"
        JobStatus.queued (some 1) none = (false, sampleJobStore)
    ∧ JobStore.update_queue_position sampleJobStore "missing" (some 2)
        = (false, sampleJobStore) := by
  have h := jobstore_missing_id_noop sampleJobStore "missing" (by decide)
  exact ⟨h.1 AuditStage.crux, h.2.1 AuditStage.crux, h.2.2.1 "r", h.2.2.2.1 "boom",
    h.2.2.2.2.1 JobStatus.queued (some 1) none, h.2.2.2.2.2 (some 2)⟩

section AlistLemmas

theorem alistLookup_update_self {β : Type} (l : List (String × β)) (k : String) (v : β) :
    alistLookup (alistUpdate l k v) k = some v := by
  induction l with
  | nil => simp [alistUpdate, alistLookup]
  | cons p rest ih =>
    obtain ⟨k', w⟩ := p
    by_cases hk : k' = k
    · simp [alistUpdate, alistLookup, hk]
    · simp [alistUpdate, alistLookup, hk, ih]

theorem alistLookup_eq_none_iff {β : Type} {l : List (String × β)} {k : String} :
    alistLookup l k = none ↔ ∀ p ∈ l, p.1 ≠ k := by
  induction l with
  | nil => simp [alistLookup]
  | cons p rest ih =>
    obtain ⟨k', w⟩ := p
    by_cases hk : k' = k
    · simp [alistLookup, hk]
    · simp [alistLookup, hk, ih]

theorem alistLookup_some_mem {β : Type} {l : List (String × β)} {k : String} {v : β}
    (h : alistLookup l k = some v) : (k, v) ∈ l := by
  induction l with
  | nil => simp [alistLookup] at h
  | cons p rest ih =>
    obtain ⟨k', w⟩ := p
    by_cases hk : k' = k
    · subst hk
      simp only [alistLookup, if_pos rfl] at h
      obtain rfl := Option.some.inj h
      exact List.mem_cons_self _ _
    · simp only [alistLookup, if_neg hk] at h
      exact List.mem_cons_of_mem _ (ih h)

theorem alistUpdate_of_lookup_none {β : Type} {l : List (String × β)} {k : String}
    (h : alistLookup l k = none) (v : β) : alistUpdate l k v = l ++ [(k, v)] := by
  induction l with
  | nil => simp [alistUpdate]
  | cons p rest ih =>
    obtain ⟨k', w⟩ := p
    simp only [alistLookup] at h
    by_cases hk : k' = k
    · simp [hk] at h
    · simp only [alistUpdate, if_neg hk, List.cons_append]
      rw [ih (by simpa [hk] using h)]

theorem alistRemoveKey_of_lookup_none {β : Type} {l : List (String × β)} {k : String}
    (h : alistLookup l k = none) : alistRemoveKey l k = l := by
  unfold alistRemoveKey
  rw [List.filter_eq_self]
  intro p hp
  simpa using alistLookup_eq_none_iff.mp h p hp

theorem alistUpdate_lookup_self {β : Type} {l : List (String × β)} {k : String} {v : β}
    (h : alistLookup l k = some v) : alistUpdate l k v = l := by
  induction l with
  | nil => simp [alistLookup] at h
  | cons p rest ih =>
    obtain ⟨k', w⟩ := p
    by_cases hk : k' = k
    · subst hk
      simp only [alistLookup, if_pos rfl] at h
      obtain rfl := Option.some.inj h
      simp [alistUpdate]
    · simp only [alistLookup, if_neg hk] at h
      simp only [alistUpdate, if_neg hk]
      rw [ih h]

theorem alistLookup_eq_none_of_not_mem_keys {β : Type} {l : List (String × β)}
    {k : String} (h : k ∉ l.map Prod.fst) : alistLookup l k = none := by
  refine alistLookup_eq_none_iff.mpr ?_
  intro p hp hpk
  exact h (List.mem_map.mpr ⟨p, hp, hpk⟩)

theorem alistLookup_filter_none {β : Type} {l : List (String × β)} {k : String}
    (p : String × β → Bool) (h : alistLookup l k = none) :
    alistLookup (l.filter p) k = none := by
  refine alistLookup_eq_none_iff.mpr ?_
  intro q hq
  exact alistLookup_eq_none_iff.mp h q (List.mem_of_mem_filter hq)

theorem setAdd_not_mem {s : List String} {x : String} (h : x ∉ s) :
    setAdd s x = s ++ [x] := by
  simp [setAdd, h]

theorem setDiscard_of_not_mem {s : List String} {x : String} (h : x ∉ s) :
    setDiscard s x = s := by
  unfold setDiscard
  rw [List.filter_eq_self]
  intro a ha
  simp only [decide_eq_true_eq]
  intro heq
  exact h (heq ▸ ha)

theorem setDiscard_setAdd {s : List String} {x : String} (h : x ∉ s) :
    setDiscard (setAdd s x) x = s := by
  rw [setAdd_not_mem h]
  have h1 := setDiscard_of_not_mem h
  unfold setDiscard at h1 ⊢
  rw [List.filter_append, h1]
  simp

theorem map_discard_id {l : List (String × List String)} {x : String}
    (h : ∀ p ∈ l, x ∉ p.2) :
    l.map (fun kv => (kv.1, setDiscard kv.2 x)) = l := by
  induction l with
  | nil => rfl
  | cons p rest ih =>
    simp only [List.map_cons]
    rw [setDiscard_of_not_mem (h p (List.mem_cons_self p rest))]
    rw [ih (fun q hq => h q (List.mem_cons_of_mem p hq))]

theorem map_discard_update (A : List (String × List String)) (c n : String)
    (s : List String) (hA : ∀ p ∈ A, n ∉ p.2) (hs : n ∉ s) :
    (alistUpdate A c (setAdd s n)).map (fun kv => (kv.1, setDiscard kv.2 n))
      = alistUpdate A c s := by
  induction A with
  | nil => simp [alistUpdate, setDiscard_setAdd hs]
  | cons p rest ih =>
    obtain ⟨k, v⟩ := p
    by_cases hk : k = c
    · simp only [alistUpdate, if_pos hk, List.map_cons]
      rw [setDiscard_setAdd hs]
      rw [map_discard_id (fun q hq => hA q (List.mem_cons_of_mem _ hq))]
    · simp only [alistUpdate, if_neg hk, List.map_cons]
      rw [setDiscard_of_not_mem (hA (k, v) (List.mem_cons_self _ _))]
      rw [ih (fun q hq => hA q (List.mem_cons_of_mem _ hq))]

theorem update_filter_eq (A : List (String × List String)) (c : String) :
    (alistUpdate A c ((alistLookup A c).getD [])).filter (fun kv => decide (kv.2 ≠ []))
      = A.filter (fun kv => decide (kv.2 ≠ [])) := by
  cases h : alistLookup A c with
  | some v =>
    rw [show (some v).getD [] = v from rfl]
    rw [alistUpdate_lookup_self h]
  | none =>
    rw [show (Option.none (α := List String)).getD [] = [] from rfl]
    rw [alistUpdate_of_lookup_none h, List.filter_append]
    simp

theorem lookup_filter_nonempty_getD (l : List (String × List String))
    (hnd : (l.map Prod.fst).Nodup) (k : String) :
    (alistLookup (l.filter (fun kv => decide (kv.2 ≠ []))) k).getD []
      = (alistLookup l k).getD [] := by
  induction l with
  | nil => rfl
  | cons p rest ih =>
    obtain ⟨k', v⟩ := p
    simp only [List.map_cons, List.nodup_cons] at hnd
    by_cases hk : k' = k
    · subst hk
      by_cases hv : v = []
      · subst hv
        have hrest : alistLookup rest k' = none :=
          alistLookup_eq_none_of_not_mem_keys hnd.1
        have hfil : alistLookup (rest.filter (fun kv => decide (kv.2 ≠ []))) k' = none :=
          alistLookup_filter_none _ hrest
        rw [List.filter_cons, if_neg (by simp), hfil]
        simp [alistLookup]
      · rw [List.filter_cons, if_pos (by simpa using hv)]
        simp [alistLookup]
    · by_cases hv : v = []
      · subst hv
        rw [List.filter_cons, if_neg (by simp), ih hnd.2]
        simp [alistLookup, hk]
      · rw [List.filter_cons, if_pos (by simpa using hv)]
        simp only [alistLookup, if_neg hk]
        exact ih hnd.2

end AlistLemmas

theorem alistRemoveKey_update_fresh {β : Type} {l : List (String × β)} {k : String}
    (v : β) (h : alistLookup l k = none) :
    alistRemoveKey (alistUpdate l k v) k = l := by
  rw [alistUpdate_of_lookup_none h v]
  unfold alistRemoveKey
  rw [List.filter_append]
  have h1 := alistRemoveKey_of_lookup_none h
  unfold alistRemoveKey at h1
  rw [h1]
  simp

/-- C3 (amended): dispatch of a submission, with a fresh `uuid4` id and a
per-IP index with unique keys (both invariants of the Python dict / uuid
machinery): (a) at or above the per-IP quota the response is 429 and the
whole state is untouched; (b) with a free concurrency slot the response is
Pending and the job is registered Pending; (c) with no slot and a full queue
the just-created job is removed again before the 503: the job map, every
client's active-job set, the event log and the queue end exactly as they
were — though `remove_job` prunes per-IP index entries whose sets were
already empty, so the index equals the prior index with empty entries
dropped; (d) otherwise the response is Queued and the job is set to Queued
at the 1-based position `enqueue` returned. -/
theorem create_audit_dispatch (st : DispatchState) (url client_ip new_job_id : String)
    (now : ℤ) (options : Option String)
    (hfresh1 : alistLookup st.job_store.jobs new_job_id = none)
    (hfresh2 : ∀ p ∈ st.job_store.ip_limits, new_job_id ∉ p.2)
    (hnodup : (st.job_store.ip_limits.map Prod.fst).Nodup) :
    (st.job_store.max_jobs_per_ip ≤ (activeJobs st.job_store client_ip).length →
      create_audit st url client_ip new_job_id now options
        = (.rateLimited, st))
    ∧ ((activeJobs st.job_store client_ip).length < st.job_store.max_jobs_per_ip →
      st.concurrency.active_count < st.concurrency.max_concurrent →
      (create_audit st url client_ip new_job_id now options).1 = .pending new_job_id
        ∧ alistLookup
            (create_audit st url client_ip new_job_id now options).2.job_store.jobs
            new_job_id = some
              { id := new_job_id, status := .pending, url := url, current_stage := none
                completed_stages := [], result := none, error := none, created_at := now
                queue_position := none }
        ∧ (create_audit st url client_ip new_job_id now options).2.queue = st.queue)
    ∧ ((activeJobs st.job_store client_ip).length < st.job_store.max_jobs_per_ip →
      st.concurrency.max_concurrent ≤ st.concurrency.active_count →
      st.queue.max_size ≤ st.queue.pendingCount →
      (create_audit st url client_ip new_job_id now options).1 = .queueFull
        ∧ (create_audit st url client_ip new_job_id now options).2.job_store.jobs
            = st.job_store.jobs
        ∧ (create_audit st url client_ip new_job_id now options).2.job_store.ip_limits
            = st.job_store.ip_limits.filter (fun kv => decide (kv.2 ≠ []))
        ∧ (∀ ip, activeJobs
            (create_audit st url client_ip new_job_id now options).2.job_store ip
            = activeJobs st.job_store ip)
        ∧ (create_audit st url client_ip new_job_id now options).2.job_store.events
            = st.job_store.events
        ∧ (create_audit st url client_ip new_job_id now options).2.queue = st.queue)
    ∧ ((activeJobs st.job_store client_ip).length < st.job_store.max_jobs_per_ip →
      st.concurrency.max_concurrent ≤ st.concurrency.active_count →
      st.queue.pendingCount < st.queue.max_size →
      (create_audit st url client_ip new_job_id now options).1
          = .queued new_job_id (st.queue.pendingCount + 1)
        ∧ alistLookup
            (create_audit st url client_ip new_job_id now options).2.job_store.jobs
            new_job_id = some
              { id := new_job_id, status := .queued, url := url, current_stage := none
                completed_stages := [], result := none, error := none, created_at := now
                queue_position := some (st.queue.pendingCount + 1) }) := by
  have hnactive : new_job_id ∉ activeJobs st.job_store client_ip := by
    unfold activeJobs
    cases h : alistLookup st.job_store.ip_limits client_ip with
    | none => simp
    | some v => simpa using hfresh2 (client_ip, v) (alistLookup_some_mem h)
  refine ⟨?_, ?_, ?_, ?_⟩
  · intro hq
    unfold activeJobs at hq
    simp only [create_audit, JobStore.create_job]
    rw [if_pos hq]
  · intro hq hslot
    unfold activeJobs at hq
    have hacq : st.concurrency.try_acquire
        = (true, { st.concurrency with active_count := st.concurrency.active_count + 1 }) := by
      simp only [ConcurrencyManager.try_acquire]
      rw [if_neg (Nat.not_le.mpr hslot)]
    simp only [create_audit, JobStore.create_job]
    rw [if_neg (Nat.not_le.mpr hq)]
    simp only [hacq]
    exact ⟨rfl, alistLookup_update_self _ _ _, rfl⟩
  · intro hq hslot hqueue
    unfold activeJobs at hq
    have hacq : st.concurrency.try_acquire = (false, st.concurrency) := by
      simp only [ConcurrencyManager.try_acquire]
      rw [if_pos hslot]
    have henq : st.queue.enqueue now new_job_id url options = (none, st.queue) := by
      simp only [PersistentQueue.enqueue]
      rw [if_pos hqueue]
    simp only [create_audit, JobStore.create_job]
    rw [if_neg (Nat.not_le.mpr hq)]
    simp only [hacq, henq, JobStore.remove_job]
    have hjobs := alistRemoveKey_update_fresh
      ({ id := new_job_id, status := JobStatus.pending, url := url, current_stage := none
         completed_stages := [], result := none, error := none, created_at := now
         queue_position := none : Job }) hfresh1
    have hips : ((alistUpdate st.job_store.ip_limits client_ip
          (setAdd (activeJobs st.job_store client_ip) new_job_id)).map
            (fun kv => (kv.1, setDiscard kv.2 new_job_id))).filter
          (fun kv => decide (kv.2 ≠ []))
        = st.job_store.ip_limits.filter (fun kv => decide (kv.2 ≠ [])) := by
      rw [map_discard_update _ _ _ _ hfresh2 hnactive]
      exact update_filter_eq _ _
    unfold activeJobs at hips
    refine ⟨rfl, hjobs, hips, ?_, rfl, rfl⟩
    intro ip
    show (alistLookup _ ip).getD [] = (alistLookup _ ip).getD []
    simp only [hips]
    exact lookup_filter_nonempty_getD _ hnodup ip
  · intro hq hslot hroom
    unfold activeJobs at hq
    have hacq : st.concurrency.try_acquire = (false, st.concurrency) := by
      simp only [ConcurrencyManager.try_acquire]
      rw [if_pos hslot]
    have henq : st.queue.enqueue now new_job_id url options
        = (some (st.queue.pendingCount + 1),
           { st.queue with
             entries := st.queue.entries ++
               [{ id := st.queue.next_id, job_id := new_job_id, url := url
                  options := options, created_at := now, status := QStatus.pending }]
             next_id := st.queue.next_id + 1 }) := by
      simp only [PersistentQueue.enqueue]
      rw [if_neg (Nat.not_le.mpr hroom)]
    simp only [create_audit, JobStore.create_job]
    rw [if_neg (Nat.not_le.mpr hq)]
    simp only [hacq, henq, JobStore.update_job_status_and_position,
      alistLookup_update_self]
    exact ⟨rfl, alistLookup_update_self _ _ _⟩

/-- A saturated dispatcher with room in the queue: one slot, occupied, empty
queue of capacity 2. -/
def sampleDispatch : DispatchState :=
  { job_store := { jobs := [], ip_limits := [], max_jobs_per_ip := 5, events := [] }
    concurrency := { max_concurrent := 1, active_count := 1 }
    queue := emptyQueue 2 }

/-- Concrete instantiation of `create_audit_dispatch` (case d) on
`sampleDispatch`: the submission is queued at position 1 and the job is
registered Queued there. -/
theorem create_audit_dispatch_witness :
    (create_audit sampleDispatch "https://e.example" "10.0.0.1" "j1" 0 none).1
        = CreateAuditOutcome.queued "j1" 1
    ∧ alistLookup
        (create_audit sampleDispatch "https://e.example" "10.0.0.1" "j1" 0 none).2.job_store.jobs
        "j1" = some
          { id := "j1", status := .queued, url := "https://e.example", current_stage := none
            completed_stages := [], result := none, error := none, created_at := 0
            queue_position := some 1 } :=
  (create_audit_dispatch sampleDispatch "https://e.example" "10.0.0.1" "j1" 0 none
    (by decide) (by decide) (by decide)).2.2.2 (by decide) (by decide) (by decide)

/-- The state refuting the claim's "leaving the registry as it was": an
unrelated client's active set is already empty (as `complete_job`/`fail_job`
leave behind), the single slot is busy, and the queue is full. -/
def dispatchWithEmptyIpSet : DispatchState :=
  { job_store := { jobs := [], ip_limits := [("10.0.0.9", [])], max_jobs_per_ip := 5
                   events := [] }
    concurrency := { max_concurrent := 1, active_count := 1 }
    queue := { max_size := 1, next_id := 2
               entries := [{ id := 1, job_id := "other", url := "u", options := none
                             created_at := 0, status := QStatus.pending }] } }

/-- C3 counterexample: on `dispatchWithEmptyIpSet` the submission is rejected
with 503 as claimed, but the registry is NOT exactly as before the
submission — `remove_job` pruned the pre-existing empty per-IP entry.  (Every
client's active-job set is nevertheless unchanged; see
`create_audit_dispatch`.) -/
theorem create_audit_restore_counterexample :
    (create_audit dispatchWithEmptyIpSet "https://e.example" "10.0.0.1" "j-new" 3 none).1
        = CreateAuditOutcome.queueFull
    ∧ (create_audit dispatchWithEmptyIpSet "https://e.example" "10.0.0.1" "j-new" 3 none).2.job_store
        ≠ dispatchWithEmptyIpSet.job_store := by
  constructor
  · decide
  · decide

/-! ## TTL result cache (`app/services/cache.py`)

The `cache` table keys rows by `url_hash = sha256(url)`; the hash is a fixed
injective keying, modelled by the url itself.  The module-level
`_cache_initialized` flag and the hit/miss/store counters are part of the
state. -/

/-- One row of the `cache` table. -/
structure CacheEntry where
  url : String
  result_json : String
  created_at : ℤ
  ttl_seconds : ℤ
  deriving DecidableEq, Repr

/-- The module state of `app/services/cache.py`. -/
structure CacheState where
  initialized : Bool
  entries : List (String × CacheEntry)
  hits : Nat
  misses : Nat
  stores : Nat
  deriving DecidableEq, Repr

/-- `_ensure_cache_initialized`: init-once guard; never clears the flag. -/
def ensure_cache_initialized (st : CacheState) : CacheState :=
  if st.initialized then st else { st with initialized := true }

/-- `store_result`: ensure the schema, `INSERT OR REPLACE` the row with
`created_at = time.time()` and the configured TTL, bump `stores`.  (The
source swallows write failures; the failure-free path is modelled.) -/
def store_result (now ttl_seconds : ℤ) (url result_json : String)
    (st : CacheState) : CacheState :=
  let st := ensure_cache_initialized st
  { st with
    entries := alistUpdate st.entries url
      { url := url, result_json := result_json, created_at := now
        ttl_seconds := ttl_seconds }
    stores := st.stores + 1 }

/-- `get_cached_result`: on a clean read, return the row's json iff
`now - created_at < ttl_seconds`, else a miss.  `corrupt = true` models a
read that raises `sqlite3.Error`/`json.JSONDecodeError`: the handler counts
a miss and returns `None` — and leaves `initialized` exactly as it was. -/
def get_cached_result (corrupt : Bool) (now : ℤ) (url : String) (st : CacheState) :
    Option String × CacheState :=
  if corrupt then (none, { st with misses := st.misses + 1 })
  else
    let st := ensure_cache_initialized st
    match alistLookup st.entries url with
    | some entry =>
        if now - entry.created_at < entry.ttl_seconds then
          (some entry.result_json, { st with hits := st.hits + 1 })
        else (none, { st with misses := st.misses + 1 })
    | none => (none, { st with misses := st.misses + 1 })

theorem ensure_cache_initialized_entries (st : CacheState) :
    (ensure_cache_initialized st).entries = st.entries := by
  unfold ensure_cache_initialized
  split <;> rfl

theorem ensure_cache_initialized_flag (st : CacheState) :
    (ensure_cache_initialized st).initialized = true := by
  unfold ensure_cache_initialized
  split
  next h => exact h
  next h => rfl

theorem store_result_entries (now ttl_seconds : ℤ) (url result_json : String)
    (st : CacheState) :
    (store_result now ttl_seconds url result_json st).entries
      = alistUpdate st.entries url
          { url := url, result_json := result_json, created_at := now
            ttl_seconds := ttl_seconds } := by
  show alistUpdate (ensure_cache_initialized st).entries url _ = _
  rw [ensure_cache_initialized_entries]

/-- C6: writing a report with `store_result` and reading it back with
`get_cached_result` strictly before the TTL has elapsed returns exactly the
stored value; reading once the TTL has elapsed returns `None`. -/
theorem cache_roundtrip (st : CacheState) (url report : String)
    (t_store t_read ttl : ℤ) :
    (t_read - t_store < ttl →
      (get_cached_result false t_read url
        (store_result t_store ttl url report st)).1 = some report)
    ∧ (ttl ≤ t_read - t_store →
      (get_cached_result false t_read url
        (store_result t_store ttl url report st)).1 = none) := by
  have hlook : alistLookup (store_result t_store ttl url report st).entries url
      = some { url := url, result_json := report, created_at := t_store
               ttl_seconds := ttl } := by
    rw [store_result_entries]
    exact alistLookup_update_self _ _ _
  constructor
  · intro h
    simp only [get_cached_result, Bool.false_eq_true, if_false,
      ensure_cache_initialized_entries, hlook]
    rw [if_pos h]
  · intro h
    simp only [get_cached_result, Bool.false_eq_true, if_false,
      ensure_cache_initialized_entries, hlook]
    rw [if_neg (not_lt.mpr h)]

/-- A fresh cache module state. -/
def initialCache : CacheState :=
  { initialized := false, entries := [], hits := 0, misses := 0, stores := 0 }

/-- Concrete instantiation of `cache_roundtrip`: a report stored at t=0 with
TTL 100 reads back at t=10 and is gone at t=100. -/
theorem cache_roundtrip_witness :
    (get_cached_result false 10 "https://e.example"
      (store_result 0 100 "https://e.example" "r" initialCache)).1 = some "r"
    ∧ (get_cached_result false 100 "https://e.example"
      (store_result 0 100 "https://e.example" "r" initialCache)).1 = none :=
  ⟨(cache_roundtrip initialCache "https://e.example" "r" 0 10 100).1 (by decide),
   (cache_roundtrip initialCache "https://e.example" "r" 0 100 100).2 (by decide)⟩

/-- An initialised cache whose backing store is about to fail a read. -/
def initializedCache : CacheState :=
  { initialized := true, entries := [], hits := 0, misses := 1, stores := 2 }

/-- C7, code evaluated at the failing input: a corrupted read returns `None`
and counts a miss, but the resulting state keeps `_cache_initialized = true`
— the flag is NOT reset, so the next `store_result` runs with the guard
still satisfied and never re-runs `_init_cache_db`, contrary to the claim
(and to the handler's own comment "will recreate on next write"). -/
theorem corrupt_read_keeps_init_flag :
    (get_cached_result true 5 "https://e.example" initializedCache).1 = none
    ∧ (get_cached_result true 5 "https://e.example" initializedCache).2
        = { initializedCache with misses := initializedCache.misses + 1 }
    ∧ (get_cached_result true 5 "https://e.example" initializedCache).2.initialized
        = true := by
  refine ⟨rfl, rfl, rfl⟩

/-! ## URL validation (`app/services/validators.py`)

`validate_url` is embedded over `List Char` (ASCII model; the inputs the
spec's claims exercise are ASCII).  `urllib.parse.urlsplit` is modelled to
the extent the validator uses it: the `(scheme, netloc)` pair. -/

/-- Python `str.strip()` whitespace (ASCII part: space, `\t`, `\n`, `\r`,
`\x0b`, `\x0c`). -/
def pyIsSpace (c : Char) : Bool :=
  c = ' ' || c = '\t' || c = '\n' || c = '\r' || c.toNat = 11 || c.toNat = 12

/-- `str.strip()`. -/
def pyStrip (s : List Char) : List Char :=
  ((s.dropWhile pyIsSpace).reverse.dropWhile pyIsSpace).reverse

/-- Python `sub in s` for strings. -/
def containsSub (sub : List Char) : List Char → Bool
  | [] => sub.isEmpty
  | c :: rest => sub.isPrefixOf (c :: rest) || containsSub sub rest

/-- Split at the first `':'`: `(text before, text after)`; `none` when there
is no colon. -/
def splitAtColon : List Char → Option (List Char × List Char)
  | [] => none
  | c :: rest =>
      if c = ':' then some ([], rest)
      else
        match splitAtColon rest with
        | some (before, after) => some (c :: before, after)
        | none => none

/-- A character allowed in a URL scheme (`urllib.parse.scheme_chars`). -/
def is_scheme_char (c : Char) : Bool :=
  c.isAlphanum || c = '+' || c = '-' || c = '.'

/-- `urllib.parse.urlsplit`, restricted to the `(scheme, netloc)` pair: the
text before the first `':'` is split off and lowercased when it is a valid
scheme token (leading letter, scheme chars); the netloc is then read only
when the remainder starts with `//`, up to the first of `/`, `?`, `#`. -/
def urlparse_scheme_netloc (s : List Char) : List Char × List Char :=
  let split :=
    match splitAtColon s with
    | some (before, after) =>
        match before with
        | [] => (([] : List Char), s)
        | b :: bs =>
            if b.isAlpha && (b :: bs).all is_scheme_char then
              ((b :: bs).map Char.toLower, after)
            else ([], s)
    | none => (([] : List Char), s)
  let netloc :=
    match split.2 with
    | '/' :: '/' :: tail =>
        tail.takeWhile (fun c => !(c == '/') && !(c == '?') && !(c == '#'))
    | _ => []
  (split.1, netloc)

/-- `netloc.split(":")[-1]`: the text after the last colon (the whole string
when there is none). -/
def afterLastColon (s : List Char) : List Char :=
  (s.reverse.takeWhile (fun c => !(c == ':'))).reverse

/-- Decimal digits to a number. -/
def digitsToNat (s : List Char) : Nat :=
  s.foldl (fun acc c => acc * 10 + (c.toNat - '0'.toNat)) 0

/-- Python `int(s)` on the strings that can reach the port check (no interior
whitespace — a netloc with a space was already rejected): optional sign then
decimal digits, `none` on anything else.  (Python also accepts `_` digit
group separators; no claim depends on them.) -/
def pyParseInt (s : List Char) : Option ℤ :=
  match s with
  | '+' :: rest =>
      if rest ≠ [] ∧ rest.all Char.isDigit then some (digitsToNat rest) else none
  | '-' :: rest =>
      if rest ≠ [] ∧ rest.all Char.isDigit then some (-(digitsToNat rest : ℤ)) else none
  | _ => if s ≠ [] ∧ s.all Char.isDigit then some (digitsToNat s) else none

/-- Split on `'.'` (Python `s.split(".")`). -/
def splitOnDot : List Char → List (List Char)
  | [] => [[]]
  | c :: rest =>
      if c = '.' then [] :: splitOnDot rest
      else
        match splitOnDot rest with
        | p :: ps => (c :: p) :: ps
        | [] => [[c]]

/-- The regex `^\d+\.\d+\.\d+\.\d+$`: exactly four non-empty all-digit
groups. -/
def isIPv4 (s : List Char) : Bool :=
  let parts := splitOnDot s
  parts.length = 4 && parts.all (fun p => !p.isEmpty && p.all Char.isDigit)

/-- A character of the class `[a-zA-Z0-9.-]`. -/
def domainChar (c : Char) : Bool :=
  c.isAlphanum || c = '.' || c = '-'

/-- Full match of `^[a-zA-Z0-9.-]+\.[a-zA-Z]{2,}$`: since the trailing group
is all-alphabetic, the separating dot must be the last dot of the string, so
the regex matches iff every character is in the class, a dot exists, the
text after the last dot is alphabetic of length ≥ 2, and something precedes
that dot. -/
def domainMatch (s : List Char) : Bool :=
  let tld := s.reverse.takeWhile (fun c => !(c == '.'))
  s.all domainChar && s.contains '.' && tld.all Char.isAlpha
    && 2 ≤ tld.length && tld.length + 2 ≤ s.length

/-- `validate_url` from `app/services/validators.py`, check for check in
source order: empty input; strip; prepend `https://` when `://` is absent;
scheme ∈ {http, https}; non-empty netloc; netloc must contain `.` and no
space; port (text after the last colon) must parse and lie in [1, 65535];
hostname classification — the `localhost`/`127.0.0.1`/`0.0.0.0` allowance,
the IPv4 pattern, then the domain pattern. -/
def validate_url (url : String) : Except String String :=
  if url = "" then Except.error "URL is required and must be a non-empty string"
  else
    let stripped := pyStrip url.toList
    let full :=
      if containsSub (String.toList "://") stripped then stripped
      else String.toList "https://" ++ stripped
    let parsed := urlparse_scheme_netloc full
    let scheme := parsed.1
    let netloc := parsed.2
    if !(scheme == String.toList "http" || scheme == String.toList "https") then
      Except.error "URL must use http or https protocol"
    else if netloc.isEmpty then
      Except.error "URL must include a valid domain"
    else if !(netloc.contains '.') || netloc.contains ' ' then
      Except.error "URL domain appears to be invalid"
    else
      let hostname := netloc.takeWhile (fun c => !(c == ':'))
      let portError : Option String :=
        if netloc.contains ':' then
          match pyParseInt (afterLastColon netloc) with
          | none => some ("Invalid port: " ++ String.mk (afterLastColon netloc))
          | some p =>
              if ¬ (1 ≤ p ∧ p ≤ 65535) then
                some ("Port " ++ toString p ++ " is out of valid range (1-65535)")
              else none
        else none
      match portError with
      | some msg => Except.error msg
      | none =>
          if hostname == String.toList "localhost"
              || hostname == String.toList "127.0.0.1"
              || hostname == String.toList "0.0.0.0" then
            Except.ok (String.mk full)
          else if isIPv4 hostname then
            Except.ok (String.mk full)
          else if domainMatch hostname then
            Except.ok (String.mk full)
          else
            Except.error "URL domain format appears invalid"

/-- C9, code evaluated at the failing input: the input `"localhost"` is
REJECTED — the `"." in netloc` requirement runs before the
`hostname in ("localhost", …)` allowance, so that allowance is unreachable
for `localhost` and validation raises `ValidationError("URL domain appears
to be invalid")`, contrary to the claim (and to the source's own
`# Allow localhost for development` branch).  The remaining behaviours the
claim lists do hold on representative inputs: trimming + `https://`
prepension, non-http(s) scheme rejection, port range rejection, and literal
IP acceptance. -/
theorem validate_url_localhost_rejected :
    validate_url "localhost" = Except.error "URL domain appears to be invalid"
    ∧ validate_url "  example.com  " = Except.ok "https://example.com"
    ∧ validate_url "ftp://example.com" = Except.error "URL must use http or https protocol"
    ∧ validate_url "https://example.com:99999"
        = Except.error "Port 99999 is out of valid range (1-65535)"
    ∧ validate_url "http://127.0.0.1" = Except.ok "http://127.0.0.1"
    ∧ validate_url "https://localhost:8080" = Except.error "URL domain appears to be invalid" := by
  refine ⟨?_, ?_, ?_, ?_, ?_, ?_⟩ <;> rfl

end AuditCli
